import Mathlib

/-!
Verification of the adk-go agent execution engine core.

This file gives a shallow embedding of the core data model and operations of
the repository (packages `events`, `sessions`, `agents`, `models`, `runners`)
and proves/refutes the frozen claims about them.

Modelling conventions:
- Go channels drained by a single consumer are modelled as `List Event`
  (the full finite stream, in send order).
- Go maps are modelled as association lists (`List (String × _)`) with
  first-match lookup and in-place overwrite on insert, because every map in
  the modelled code is only accessed under a lock by one goroutine at a time.
- `interface{}` values stored in session state are modelled by `GoValue`.
- `time.Now()` and `uuid.New()` are nondeterministic inputs; they are passed
  as explicit `now : Nat` / fresh-id `String` parameters.
- Pointer aliasing matters in one place: the `Runner` holds a `*Session`
  that is the same object stored in the `InMemorySessionService` map, so a
  mutation through either alias is modelled as an update of the stored
  session; see `runnerRunAsync`.
-/

namespace Adk

/-! ## Go values (`interface{}` payloads stored in session state) -/

/-- A Go `interface{}` value as it is actually used by the modelled code:
booleans (the `exit_loop` flag), strings (output-key text), integers. -/
inductive GoValue where
  | vBool (b : Bool)
  | vString (s : String)
  | vInt (n : Int)
deriving DecidableEq

/-! ## Association-list primitives (Go `map[string]V` under a lock) -/

/-- Lookup in a Go map modelled as an association list (first match wins;
inserts keep at most one entry per key). -/
def alistGet {α : Type} : List (String × α) → String → Option α
  | [], _ => none
  | (k1, v) :: rest, k => if k1 = k then some v else alistGet rest k

/-- Go map assignment `m[k] = v`: overwrite the existing entry, else append. -/
def alistSet {α : Type} : List (String × α) → String → α → List (String × α)
  | [], k, v => [(k, v)]
  | (k1, v1) :: rest, k, v =>
      if k1 = k then (k, v) :: rest else (k1, v1) :: alistSet rest k v

/-- Go map deletion `delete(m, k)`. -/
def alistErase {α : Type} : List (String × α) → String → List (String × α)
  | [], _ => []
  | (k1, v1) :: rest, k =>
      if k1 = k then rest else (k1, v1) :: alistErase rest k

/-! ## Event/Content model (package `events`, src/unnamed/part_001) -/

/-- `events.Part`: currently text-only. -/
structure Part where
  text : String
deriving DecidableEq

/-- `events.Content`: a role tag plus ordered parts. -/
structure Content where
  role : String
  parts : List Part
deriving DecidableEq

/-- `events.EventActions`: the action bundle attached to every event.
`RequestedAuthConfigs` is `[]interface{}` in Go. -/
structure EventActions where
  transferToAgent : String
  escalate : Bool
  skipSummarization : Bool
  stateDelta : List (String × GoValue)
  artifactDelta : List (String × GoValue)
  requestedAuthConfigs : List GoValue
deriving DecidableEq

/-- The zero `EventActions` value (`EventActions{}` in Go). -/
def EventActions.empty : EventActions :=
  { transferToAgent := ""
    escalate := false
    skipSummarization := false
    stateDelta := []
    artifactDelta := []
    requestedAuthConfigs := [] }

/-- `events.Event`. `Timestamp` is modelled as a `Nat` tick. -/
structure Event where
  id : String
  invocationID : String
  timestamp : Nat
  author : String
  content : Option Content
  branch : String
  isFinalResponse : Bool
  actions : EventActions
  longRunningToolIDs : List String
deriving DecidableEq

/-- `events.NewEvent()`: fresh id and current time are explicit inputs. -/
def NewEvent (freshID : String) (now : Nat) : Event :=
  { id := freshID
    invocationID := ""
    timestamp := now
    author := ""
    content := none
    branch := ""
    isFinalResponse := false
    actions := EventActions.empty
    longRunningToolIDs := [] }

/-! ## Session and State (package `sessions`, src/google/adk/sessions/session.go) -/

/-- The `data map[string]interface{}` inside `sessions.State`.  The
`sync.RWMutex` guarding it is modelled separately (see the `Lock*`
definitions) for the atomicity claim; the sequential semantics of
Get/Set/Update on the map are the functions below. -/
abbrev StateData := List (String × GoValue)

/-- `State.Get` (session.go:50): value plus existence flag, as an `Option`. -/
def stateGet (s : StateData) (key : String) : Option GoValue :=
  alistGet s key

/-- `State.Set` (session.go:58). -/
def stateSet (s : StateData) (key : String) (value : GoValue) : StateData :=
  alistSet s key value

/-- `State.Update` (session.go:65): apply every pair of the update map.
The Go `range` order over the update map is the list order here. -/
def stateUpdate (s : StateData) (updates : List (String × GoValue)) : StateData :=
  updates.foldl (fun acc kv => stateSet acc kv.1 kv.2) s

/-- `sessions.Session`. -/
structure Session where
  id : String
  appName : String
  userID : String
  state : StateData
  events : List Event
  lastUpdateTime : Nat
deriving DecidableEq

/-- `sessions.NewSession` (session.go:101): empty-id sessions get a fresh
uuid as `ID` (but note the service key is still built from the original
sessionID argument by the callers). -/
def NewSession (appName userID sessionID : String) (initialState : Option StateData)
    (freshID : String) (now : Nat) : Session :=
  { id := if sessionID = "" then freshID else sessionID
    appName := appName
    userID := userID
    state := initialState.getD []
    events := []
    lastUpdateTime := now }

/-- `Session.AddEvent` (session.go:124). -/
def Session.AddEvent (s : Session) (event : Event) (now : Nat) : Session :=
  { s with events := s.events ++ [event], lastUpdateTime := now }

/-- The `sessions` map of `InMemorySessionService`. -/
abbrev SessionStore := List (String × Session)

/-- `InMemorySessionService.sessionKey` (session.go:172). -/
def sessionKey (appName userID sessionID : String) : String :=
  appName ++ ":" ++ userID ++ ":" ++ sessionID

/-- `InMemorySessionService.CreateSession` (session.go:177): stores and
returns the new session; never errors. -/
def createSession (svc : SessionStore) (appName userID sessionID : String)
    (initialState : Option StateData) (freshID : String) (now : Nat) :
    SessionStore × Session :=
  let session := NewSession appName userID sessionID initialState freshID now
  (alistSet svc (sessionKey appName userID sessionID) session, session)

/-- `InMemorySessionService.GetSession` (session.go:189): `none` is the
"not found" sentinel (Go returns `nil, nil`). -/
def getSession (svc : SessionStore) (appName userID sessionID : String) : Option Session :=
  alistGet svc (sessionKey appName userID sessionID)

/-- The filter used by `ListSessions` (session.go:222):
`len(key) > len(prefix) && key[:len(prefix)] == prefix`.  Byte slicing plus
equality on the first `len` bytes is exactly a prefix test, stated here on
the character list of the string. -/
def listMatch (pre key : String) : Bool :=
  decide (pre.length < key.length) && pre.data.isPrefixOf key.data

/-- `InMemorySessionService.ListSessions` (session.go:214): all stored
sessions whose key strictly extends `appName ++ ":" ++ userID ++ ":"`.
Go map iteration order is arbitrary; the model returns store order, and the
theorems about this function only use membership. -/
def listSessions (svc : SessionStore) (appName userID : String) : List Session :=
  (svc.filter fun kv => listMatch (appName ++ ":" ++ userID ++ ":") kv.1).map Prod.snd

/-- `InMemorySessionService.AppendEvent` (session.go:231): returns the error
value (always `none` = Go `nil`) and the updated store.  A missing session
is silently ignored. -/
def appendEvent (svc : SessionStore) (appName userID sessionID : String)
    (event : Event) (now : Nat) : Option String × SessionStore :=
  match alistGet svc (sessionKey appName userID sessionID) with
  | none => (none, svc)
  | some session =>
      (none, alistSet svc (sessionKey appName userID sessionID)
        (session.AddEvent event now))

/-- `InMemorySessionService.ListEvents` (session.go:246). -/
def listEvents (svc : SessionStore) (appName userID sessionID : String) :
    Option (List Event) :=
  match alistGet svc (sessionKey appName userID sessionID) with
  | none => none
  | some session => some session.events

/-- `InMemorySessionService.DeleteSession` (session.go:203). -/
def deleteSession (svc : SessionStore) (appName userID sessionID : String) : SessionStore :=
  alistErase svc (sessionKey appName userID sessionID)

/-- The persisted event list of one session, `[]` when absent.  Used to state
the Runner ordering claims. -/
def persistedEvents (svc : SessionStore) (appName userID sessionID : String) : List Event :=
  match getSession svc appName userID sessionID with
  | none => []
  | some session => session.events

/-! ## Agent abstraction and Runner (packages `agents`, `runners`) -/

/-- `agents.InvocationContext` (base_agent.go:25): holds a by-value copy of
the session (`Session: *session` dereferences the pointer). -/
structure InvocationContext where
  session : Session
deriving DecidableEq

/-- The root agent as the Runner sees it: `Agent.RunAsync` either fails
synchronously (error before any event) or yields a finite event stream.
The concrete agent implementations are modelled separately below. -/
abbrev AgentFn := InvocationContext -> Except String (List Event)

/-- `Runner.getOrCreateSession` (part_000:155): get, or create with `nil`
initial state.  The in-memory service never errors, so no error case. -/
def getOrCreateSession (svc : SessionStore) (appName userID sessionID : String)
    (freshID : String) (now : Nat) : SessionStore × Session :=
  match getSession svc appName userID sessionID with
  | some session => (svc, session)
  | none => createSession svc appName userID sessionID none freshID now

/-- The user event synthesized by `Runner.RunAsync` (part_000:74-76). -/
def runnerUserEvent (newMessage : Content) (freshID : String) (now : Nat) : Event :=
  { NewEvent freshID now with author := "user", content := some newMessage }

/-- The session store after the inbound-message phase of `Runner.RunAsync`
(part_000:73-81), i.e. just before the root agent is invoked.

The local `session` pointer aliases the session stored in the service map,
so `session.AddEvent(userEvent)` (part_000:77) already mutates the stored
session; `SessionService.AppendEvent` (part_000:80) then appends the same
event again through the map.  Both mutations are modelled by `appendEvent`
at the same key: the user event therefore ends up twice in the stored
event list. -/
def runnerStoreBeforeAgent (svc : SessionStore) (appName userID sessionID : String)
    (newMessage : Option Content) (freshSessionID freshEventID : String) (now : Nat) :
    SessionStore :=
  let svc1 := (getOrCreateSession svc appName userID sessionID freshSessionID now).1
  match newMessage with
  | none => svc1
  | some msg =>
      let userEvent := runnerUserEvent msg freshEventID now
      let svc2 := (appendEvent svc1 appName userID sessionID userEvent now).2
      (appendEvent svc2 appName userID sessionID userEvent now).2

/-- The invocation context built at part_000:84-86: a by-value snapshot of
the (ensured, user-event-updated) session.  The lookup cannot miss because
`getOrCreateSession` stored the session under the same key; the `getD`
default is dead code. -/
def runnerInvCtx (svc : SessionStore) (appName userID sessionID : String)
    (newMessage : Option Content) (freshSessionID freshEventID : String) (now : Nat) :
    InvocationContext :=
  let svc2 := runnerStoreBeforeAgent svc appName userID sessionID newMessage
    freshSessionID freshEventID now
  { session := (getSession svc2 appName userID sessionID).getD
      (NewSession appName userID sessionID none freshSessionID now) }

/-- The relay goroutine of `Runner.RunAsync` (part_000:97-107): for each
agent event, persist it via `AppendEvent`, then send it on the output
channel.  The result records, for every delivered event, the store state at
the moment of delivery (first component) together with the event, plus the
final store after the stream closes. -/
def runnerRelay (appName userID sessionID : String) (now : Nat) :
    SessionStore -> List Event -> SessionStore × List (SessionStore × Event)
  | svc, [] => (svc, [])
  | svc, e :: rest =>
      let svc1 := (appendEvent svc appName userID sessionID e now).2
      let r := runnerRelay appName userID sessionID now svc1 rest
      (r.1, (svc1, e) :: r.2)

/-- The observable result of one `Runner.RunAsync` call: the final store and
the delivery trace. -/
structure RunnerRun where
  finalStore : SessionStore
  trace : List (SessionStore × Event)
deriving DecidableEq

/-- The event sequence the caller drains from the output channel. -/
def RunnerRun.output (r : RunnerRun) : List Event :=
  r.trace.map Prod.snd

/-- `Runner.RunAsync` (part_000:65-110): ensure the session, append/persist
the inbound user event if present, invoke the root agent, and relay every
agent event through `AppendEvent` into the session store before delivering
it to the caller.  Fails only when the root agent fails synchronously. -/
def runnerRunAsync (svc : SessionStore) (appName userID sessionID : String)
    (newMessage : Option Content) (agent : AgentFn)
    (freshSessionID freshEventID : String) (now : Nat) :
    Except String RunnerRun :=
  let svc2 := runnerStoreBeforeAgent svc appName userID sessionID newMessage
    freshSessionID freshEventID now
  match agent (runnerInvCtx svc appName userID sessionID newMessage
      freshSessionID freshEventID now) with
  | .error e => .error e
  | .ok agentEvents =>
      let r := runnerRelay appName userID sessionID now svc2 agentEvents
      .ok { finalStore := r.1, trace := r.2 }

/-! ## Workflow combinators (src/google/adk/agents/workflow_agents.go)

A child agent is abstracted as a function of the mutable session state (the
`State` pointer shared through the invocation context): it either fails
synchronously (`RunAsync` returns an error: no goroutine, no events, no
state change) or produces its final state together with its full event
stream.  The sequential and loop combinators drain one child completely
before starting the next, so this sequential abstraction is faithful for
them. -/

abbrev ChildRun := StateData -> Except String (StateData × List Event)

/-- A before/after agent callback (base_agent.go:71-72): may mutate session
state through the context and may fail. -/
abbrev AgentCallback := StateData -> Except String StateData

/-- Run an optional callback (`nil` callback is skipped). -/
def runCallback : Option AgentCallback -> StateData -> Except String StateData
  | none, s => .ok s
  | some f, s => f s

/-- The child loop of `SequentialAgent.RunAsync` (workflow_agents.go:57-68):
run every child in order; a child whose `RunAsync` errors is skipped
(`continue`), all events of a successful child are forwarded. -/
def seqChildrenRun : List ChildRun -> StateData -> StateData × List Event
  | [], s => (s, [])
  | c :: cs, s =>
      match c s with
      | .error _ => seqChildrenRun cs s
      | .ok (s1, evs) =>
          let r := seqChildrenRun cs s1
          (r.1, evs ++ r.2)

/-- Per-child output streams of a sequential pass, at the states the pass
actually threads (an erroring child owns an empty slot). -/
def childOutputs : List ChildRun -> StateData -> List (List Event)
  | [], _ => []
  | c :: cs, s =>
      match c s with
      | .error _ => [] :: childOutputs cs s
      | .ok (s1, evs) => evs :: childOutputs cs s1

/-- `SequentialAgent.RunAsync` (workflow_agents.go:43-79): before-callback
failure ends the run with no events; after-callback failure happens after
all events were already forwarded. -/
def sequentialRunAsync (beforeCb afterCb : Option AgentCallback)
    (children : List ChildRun) (s : StateData) : StateData × List Event :=
  match runCallback beforeCb s with
  | .error _ => (s, [])
  | .ok s0 =>
      let r := seqChildrenRun children s0
      match runCallback afterCb r.1 with
      | .error _ => (r.1, r.2)
      | .ok s2 => (s2, r.2)

/-- `LoopAgent.shouldExitLoopFromEvent` (workflow_agents.go:233-236): the
`SkipSummarization` action doubles as the loop-exit request. -/
def shouldExitLoopFromEvent (e : Event) : Bool :=
  e.actions.skipSummarization

/-- `LoopAgent.shouldExitLoop` (workflow_agents.go:222-230): the session
state holds `exit_loop` and it type-asserts to `true`. -/
def shouldExitLoop (s : StateData) : Bool :=
  match stateGet s "exit_loop" with
  | some (GoValue.vBool b) => b
  | _ => false

/-- Event forwarding for one child inside the loop (workflow_agents.go:
198-205): each event is forwarded, then checked; on an exit-signalling
event the remainder of the stream is abandoned (`goto exitLoop`).  Returns
the forwarded events and whether the loop was exited. -/
def loopForwardChild : List Event -> List Event × Bool
  | [] => ([], false)
  | e :: rest =>
      if shouldExitLoopFromEvent e then ([e], true)
      else
        let r := loopForwardChild rest
        (e :: r.1, r.2)

/-- One pass over the children inside the loop (workflow_agents.go:190-206):
like the sequential pass, but forwarding stops the whole loop as soon as a
forwarded event signals exit.  When the exit fires mid-child the returned
state is the child's final state; it is never consulted afterwards because
the loop stops. -/
def loopChildrenRun : List ChildRun -> StateData -> StateData × List Event × Bool
  | [], s => (s, [], false)
  | c :: cs, s =>
      match c s with
      | .error _ => loopChildrenRun cs s
      | .ok (s1, evs) =>
          let f := loopForwardChild evs
          if f.2 then (s1, f.1, true)
          else
            let r := loopChildrenRun cs s1
            (r.1, f.1 ++ r.2.1, r.2.2)

/-- The iteration loop of `LoopAgent.RunAsync` (workflow_agents.go:183-207),
with the remaining iteration budget as fuel: before each iteration the
session-state exit flag is checked; forwarding an exit-signalling event
aborts every remaining child and iteration. -/
def loopIterate (children : List ChildRun) : Nat -> StateData -> StateData × List Event
  | 0, s => (s, [])
  | Nat.succ k, s =>
      if shouldExitLoop s then (s, [])
      else
        let p := loopChildrenRun children s
        if p.2.2 then (p.1, p.2.1)
        else
          let r := loopIterate children k p.1
          (r.1, p.2.1 ++ r.2)

/-- `LoopAgent.RunAsync` (workflow_agents.go:169-219).  `MaxIterations` is a
Go `int`; a non-positive value runs zero iterations, so `Nat` is faithful. -/
def loopRunAsync (beforeCb afterCb : Option AgentCallback) (children : List ChildRun)
    (maxIterations : Nat) (s : StateData) : StateData × List Event :=
  match runCallback beforeCb s with
  | .error _ => (s, [])
  | .ok s0 =>
      let r := loopIterate children maxIterations s0
      match runCallback afterCb r.1 with
      | .error _ => (r.1, r.2)
      | .ok s2 => (s2, r.2)

/-- The reference run for the loop-cap claim: `maxIterations` unchecked full
sequential passes, collecting each pass's events. -/
def fullPasses (children : List ChildRun) : Nat -> StateData -> StateData × List (List Event)
  | 0, s => (s, [])
  | Nat.succ k, s =>
      let p := seqChildrenRun children s
      let r := fullPasses children k p.1
      (r.1, p.2 :: r.2)

/-- The states at which `shouldExitLoop` is consulted before each of the
`maxIterations` iterations, along the unchecked reference run. -/
def passStates (children : List ChildRun) : Nat -> StateData -> List StateData
  | 0, _ => []
  | Nat.succ k, s => s :: passStates children k (seqChildrenRun children s).1

/-! ## Model-backed leaf agent, output-key handling (src/google/adk/agents/llm_agent.go) -/

/-- The two observable operations of the `LlmAgent` response loop, in
program order: a session-state write (`State.Set`) and a send on the
agent's output channel. -/
inductive LlmOp where
  | stateWrite (key text : String)
  | forward (e : Event)
deriving DecidableEq

/-- `LlmAgent.hasToolCalls` (llm_agent.go:311-314): currently always
`false`. -/
def hasToolCalls (_e : Event) : Bool :=
  false

/-- `LlmAgent.processToolCalls` (llm_agent.go:317-324): currently returns no
events. -/
def processToolCalls (_e : Event) : List Event :=
  []

/-- `LlmAgent.storeOutputInSession` (llm_agent.go:327-332) as the operations
it performs: one state write of the first part's text, provided the content
is present and has at least one part. -/
def storeOutputInSession (outputKey : String) (e : Event) : List LlmOp :=
  match e.content with
  | none => []
  | some c =>
      match c.parts with
      | [] => []
      | p :: _ => [LlmOp.stateWrite outputKey p.text]

/-- The response-processing loop of `LlmAgent.RunAsync` (llm_agent.go:
211-233) as its sequence of observable operations: tool-call events would
be replaced by the (currently empty) tool events; otherwise the output key
is stored for final-response events with content, and then the event is
forwarded. -/
def llmProcessEvents (outputKey : String) : List Event -> List LlmOp
  | [] => []
  | e :: rest =>
      let ops :=
        if hasToolCalls e then
          (processToolCalls e).map LlmOp.forward
        else
          (if outputKey != "" && e.isFinalResponse && e.content.isSome then
            storeOutputInSession outputKey e
          else []) ++ [LlmOp.forward e]
      ops ++ llmProcessEvents outputKey rest

/-! ## Model registry (package `models`, src/unnamed/part_004) -/

/-- A resolved LLM handle.  Go hands out `*GeminiLLM` pointers; pointer
identity is modelled by `instanceId`, the value of the registry's
factory-invocation counter at creation time, so two distinct factory
invocations always yield distinct handles. -/
structure LLMHandle where
  modelType : String
  modelName : String
  instanceId : Nat
deriving DecidableEq

/-- `models.LLMRegistry` (part_004:134-138): the registered factory types
(`init` registers exactly "gemini") and the per-model-name instance cache.
`factoryCalls` instruments how many times a factory has been invoked. -/
structure LLMRegistry where
  models : List String
  instances : List (String × LLMHandle)
  factoryCalls : Nat
deriving DecidableEq

/-- The registry as left by `init` (part_004:187-190). -/
def defaultRegistry : LLMRegistry :=
  { models := ["gemini"], instances := [], factoryCalls := 0 }

/-- `models.NewLLM` (part_004:153-179): return the cached instance if any;
otherwise derive the model type from the name (`len >= 6 && name[:6] ==
"gemini"`, stated on the character list), look up the factory, create, and
cache.  Returns the updated registry and the result. -/
def newLLM (reg : LLMRegistry) (modelName : String) : LLMRegistry × Except String LLMHandle :=
  match alistGet reg.instances modelName with
  | some instanceHit => (reg, .ok instanceHit)
  | none =>
      if 6 <= modelName.data.length && modelName.data.take 6 == "gemini".data then
        if reg.models.contains "gemini" then
          let inst : LLMHandle :=
            { modelType := "gemini", modelName := modelName, instanceId := reg.factoryCalls }
          ({ reg with
              instances := alistSet reg.instances modelName inst
              factoryCalls := reg.factoryCalls + 1 },
            .ok inst)
        else (reg, .error "no factory registered for model type: gemini")
      else (reg, .error ("unsupported model: " ++ modelName))

/-- `models.Resolve` (part_004:182-184): alias for `NewLLM`. -/
def resolve (reg : LLMRegistry) (modelName : String) : LLMRegistry × Except String LLMHandle :=
  newLLM reg modelName

/-- `LlmAgent.GetCanonicalModel` (llm_agent.go:135-145): resolve lazily and
cache on the agent (`a.llm`); a resolution error returns Go `nil`, modelled
as `none`, leaving the cache unset.  Returns the agent's cache after the
call (which is also the returned handle on success) and the registry. -/
def getCanonicalModel (cachedLlm : Option LLMHandle) (model : String)
    (reg : LLMRegistry) : Option LLMHandle × LLMRegistry :=
  match cachedLlm with
  | some h => (some h, reg)
  | none =>
      let r := resolve reg model
      match r.2 with
      | .error _ => (none, r.1)
      | .ok h => (some h, r.1)

/-! ## RWMutex discipline of `State.Update` vs `State.Get` (session.go:49-71)

`State.Update` performs its key writes inside one `mu.Lock()/mu.Unlock()`
critical section, while every `State.Get` holds `mu.RLock()`.  The claim is
about what an interleaved reader can observe, so the lock protocol itself
is embedded as a transition system: one updater thread running
`Update({k1:v1, k2:v2})`, and any number of reader threads performing
`Get`s.  The store contents are abstracted to which of the two bulk-update
writes have been applied. -/

/-- Global state of the lock protocol: the `sync.RWMutex` (writer flag +
reader count), which of the two writes of the bulk update have landed, and
the updater thread's program counter (0 acquire, 1 write k1, 2 write k2,
3 release, 4 done). -/
structure LockState where
  writeLocked : Bool
  readers : Nat
  k1New : Bool
  k2New : Bool
  pcU : Nat
deriving DecidableEq

/-- Initial state: lock free, both keys still holding their old values,
updater about to call `State.Update`. -/
def lockInit : LockState :=
  { writeLocked := false, readers := 0, k1New := false, k2New := false, pcU := 0 }

/-- One interleaving step.  Updater steps follow `State.Update`
(session.go:65-71): `mu.Lock()` needs no writer and no readers, the two map
writes happen under the lock, `mu.Unlock()` releases.  Reader steps follow
`State.Get` (session.go:50-55): `mu.RLock()` needs no writer; the read
itself is any moment with `readers > 0`. -/
inductive LockStep : LockState -> LockState -> Prop where
  | acqWrite (st : LockState) (hpc : st.pcU = 0) (hw : st.writeLocked = false)
      (hr : st.readers = 0) :
      LockStep st { st with writeLocked := true, pcU := 1 }
  | writeK1 (st : LockState) (hpc : st.pcU = 1) :
      LockStep st { st with k1New := true, pcU := 2 }
  | writeK2 (st : LockState) (hpc : st.pcU = 2) :
      LockStep st { st with k2New := true, pcU := 3 }
  | relWrite (st : LockState) (hpc : st.pcU = 3) :
      LockStep st { st with writeLocked := false, pcU := 4 }
  | acqRead (st : LockState) (hw : st.writeLocked = false) :
      LockStep st { st with readers := st.readers + 1 }
  | relRead (st : LockState) (hr : 0 < st.readers) :
      LockStep st { st with readers := st.readers - 1 }

/-- States reachable from `lockInit` under any interleaving. -/
inductive LockReachable : LockState -> Prop where
  | init : LockReachable lockInit
  | step {st st2 : LockState} : LockReachable st -> LockStep st st2 -> LockReachable st2

/-- Inductive invariant of the protocol: the updater's program counter
determines the lock and store shape — while between `mu.Lock()` and
`mu.Unlock()` (pc 1-3) the write lock is held and no reader is inside, and
the half-updated store (k1 written, k2 not yet) exists only at pc 2. -/
def LockInv (st : LockState) : Prop :=
  (st.pcU = 0 ∧ st.k1New = false ∧ st.k2New = false) ∨
  (st.pcU = 1 ∧ st.writeLocked = true ∧ st.readers = 0 ∧ st.k1New = false ∧ st.k2New = false) ∨
  (st.pcU = 2 ∧ st.writeLocked = true ∧ st.readers = 0 ∧ st.k1New = true ∧ st.k2New = false) ∨
  (st.pcU = 3 ∧ st.writeLocked = true ∧ st.readers = 0 ∧ st.k1New = true ∧ st.k2New = true) ∨
  (st.pcU = 4 ∧ st.k1New = true ∧ st.k2New = true)

/-! ## Concrete instances used by counterexamples and witnesses -/

/-- Hypothesis notion for the amended key-collision claim: the string does
not contain the key separator. -/
def colonFree (s : String) : Bool :=
  decide (¬ (':' ∈ s.data))

/-- A session created under appName "a:b", userID "c": its service key
"a:b:c:s" collides with the (app, user) list query ("a", "b:c"). -/
def sessC9 : Session :=
  NewSession "a:b" "c" "s" none "" 0

/-- A store holding exactly `sessC9`, built through `createSession`. -/
def storeC9 : SessionStore :=
  (createSession [] "a:b" "c" "s" none "" 0).1

/-- The inbound user message of the C2 counterexample run. -/
def msgC2 : Content :=
  { role := "user", parts := [{ text := "hello" }] }

/-- The single event emitted by the C2 counterexample's root agent: a
model-authored final response. -/
def modelEventC2 : Event :=
  { NewEvent "agent-ev" 1 with
      author := "model"
      isFinalResponse := true
      content := some { role := "model", parts := [{ text := "hi" }] } }

/-- The C2 counterexample's root agent: emits exactly `modelEventC2`. -/
def agentC2 : AgentFn :=
  fun _ => .ok [modelEventC2]

/-- A benign event (no actions) used by combinator witnesses. -/
def evPlain : Event :=
  { NewEvent "plain-ev" 0 with author := "child" }

/-- A child that emits one benign event and leaves the state alone. -/
def childPlain : ChildRun :=
  fun s => .ok (s, [evPlain])

/-- A child whose `RunAsync` fails synchronously. -/
def childErr : ChildRun :=
  fun _ => .error "boom"

/-- An event whose action bundle requests a loop exit. -/
def evExit : Event :=
  { NewEvent "exit-ev" 0 with
      author := "child"
      actions := { EventActions.empty with skipSummarization := true } }

/-- A child that emits an exit-signalling event followed by one more event
that the loop must abandon. -/
def childExit : ChildRun :=
  fun s => .ok (s, [evExit, evPlain])

/-- A final-response event with content, for the output-key claim. -/
def evC6 : Event :=
  { NewEvent "final-ev" 0 with
      author := "model"
      isFinalResponse := true
      content := some { role := "model", parts := [{ text := "hi" }] } }



/-- The concrete run used by the C1 witness: no inbound message, one agent
event. -/
def runC1 : RunnerRun :=
  ((runnerRunAsync [] "app" "u" "s" none agentC2 "sid" "eid" 0).toOption).getD ⟨[], []⟩

/-- The concrete run used by the C2 witness/counterexample: inbound message
`msgC2`, one model-authored agent event. -/
def runC2 : RunnerRun :=
  ((runnerRunAsync [] "app" "u" "s" (some msgC2) agentC2 "sid" "eid" 0).toOption).getD ⟨[], []⟩

/-- Executable check that loop-exit-signalling events occur, if at all, only
as the very last element of an output stream. -/
def exitOnlyAtEnd : List Event -> Bool
  | [] => true
  | _ :: [] => true
  | e :: rest => !shouldExitLoopFromEvent e && exitOnlyAtEnd rest

/-! ## Helper lemmas -/

theorem alistGet_set_self {α : Type} (m : List (String × α)) (k : String) (v : α) :
    alistGet (alistSet m k v) k = some v := by
  induction m with
  | nil => simp [alistGet, alistSet]
  | cons kv rest ih =>
      by_cases h : kv.1 = k
      · simp [alistSet, alistGet, h]
      · simpa [alistSet, alistGet, h] using ih

theorem isPrefixOf_eq_true_iff : ∀ (l m : List Char), l.isPrefixOf m = true ↔ ∃ t, m = l ++ t := by
  intro l
  induction l with
  | nil =>
      intro m
      simp [List.isPrefixOf]
  | cons a as ih =>
      intro m
      cases m with
      | nil =>
          simp [List.isPrefixOf]
      | cons b bs =>
          simp only [List.isPrefixOf, Bool.and_eq_true, beq_iff_eq, ih bs]
          constructor
          · rintro ⟨hab, t, ht⟩
            exact ⟨t, by simp [hab, ht]⟩
          · rintro ⟨t, ht⟩
            simp only [List.cons_append, List.cons.injEq] at ht
            exact ⟨ht.1.symm, t, ht.2⟩

theorem data_append (s t : String) : (s ++ t).data = s.data ++ t.data :=
  rfl

theorem splitColon : ∀ (a1 a2 r1 r2 : List Char), ':' ∉ a1 → ':' ∉ a2 →
    a1 ++ ':' :: r1 = a2 ++ ':' :: r2 → a1 = a2 ∧ r1 = r2 := by
  intro a1
  induction a1 with
  | nil =>
      intro a2 r1 r2 _ h2 h
      cases a2 with
      | nil =>
          simp at h
          exact ⟨rfl, h⟩
      | cons b bs =>
          simp only [List.nil_append, List.cons_append, List.cons.injEq] at h
          exact absurd (by rw [h.1]; exact List.mem_cons_self b bs) h2
  | cons a as ih =>
      intro a2 r1 r2 h1 h2 h
      cases a2 with
      | nil =>
          simp only [List.cons_append, List.nil_append, List.cons.injEq] at h
          exact absurd (by rw [← h.1]; exact List.mem_cons_self a as) h1
      | cons b bs =>
          simp only [List.cons_append, List.cons.injEq] at h
          have hrest := ih bs r1 r2 (fun hm => h1 (List.mem_cons_of_mem a hm))
            (fun hm => h2 (List.mem_cons_of_mem b hm)) h.2
          exact ⟨by rw [h.1, hrest.1], hrest.2⟩

/-! ## Claims C9 and C10: session-store keying and silent append drop -/

/-- C9 counterexample: the claim "no cross-user prefix collision is possible
under the store's key construction" is false.  The session stored under
(appName "a:b", userID "c") is returned by `ListSessions "a" "b:c"`, a
different (app, user) pair, because the separator may occur inside names. -/
theorem C9_counterexample :
    listSessions storeC9 "a" "b:c" = [sessC9] ∧ sessC9.appName ≠ "a" ∧ sessC9.userID ≠ "b:c" := by
  refine ⟨by decide, by decide, by decide⟩

/-- C9, amended: `ListSessions` returns exactly the stored sessions whose
key strictly extends `appName ++ ":" ++ userID ++ ":"`; and this prefix can
only be produced by a different (app, user) pair when one of the names
contains the separator, i.e. for separator-free names no cross-pair
collision is possible. -/
theorem C9_amended :
    (∀ (svc : SessionStore) (appName userID : String) (sess : Session),
        sess ∈ listSessions svc appName userID ↔
          ∃ k, (k, sess) ∈ svc ∧ listMatch (appName ++ ":" ++ userID ++ ":") k = true) ∧
    (∀ a1 u1 sid a2 u2 : String, colonFree a1 = true → colonFree u1 = true →
        colonFree a2 = true → colonFree u2 = true →
        listMatch (a2 ++ ":" ++ u2 ++ ":") (sessionKey a1 u1 sid) = true →
        a1 = a2 ∧ u1 = u2) := by
  constructor
  · intro svc appName userID sess
    simp only [listSessions, List.mem_map, List.mem_filter]
    constructor
    · rintro ⟨⟨k, s0⟩, ⟨hmem, hmatch⟩, hsnd⟩
      subst hsnd
      exact ⟨k, hmem, hmatch⟩
    · rintro ⟨k, hmem, hmatch⟩
      exact ⟨(k, sess), ⟨hmem, hmatch⟩, rfl⟩
  · intro a1 u1 sid a2 u2 hf1 hf2 hf3 hf4 hmatch
    have h1 : (':' : Char) ∉ a1.data := by
      simpa [colonFree] using hf1
    have h2 : (':' : Char) ∉ u1.data := by
      simpa [colonFree] using hf2
    have h3 : (':' : Char) ∉ a2.data := by
      simpa [colonFree] using hf3
    have h4 : (':' : Char) ∉ u2.data := by
      simpa [colonFree] using hf4
    have hpre : ((a2 ++ ":" ++ u2 ++ ":").data).isPrefixOf ((sessionKey a1 u1 sid).data) = true := by
      have h0 := hmatch
      simp only [listMatch, Bool.and_eq_true] at h0
      exact h0.2
    rw [isPrefixOf_eq_true_iff] at hpre
    obtain ⟨t, ht⟩ := hpre
    have hdata : a1.data ++ ':' :: (u1.data ++ ':' :: sid.data) =
        a2.data ++ ':' :: (u2.data ++ ':' :: t) := by
      have hcolon : (":" : String).data = [':'] := rfl
      simpa [sessionKey, data_append, hcolon, List.append_assoc] using ht
    have hsplit1 := splitColon a1.data a2.data _ _ h1 h3 hdata
    have hsplit2 := splitColon u1.data u2.data _ _ h2 h4 hsplit1.2
    exact ⟨congrArg String.mk hsplit1.1, congrArg String.mk hsplit2.1⟩

/-- C9 witness: both halves of the amended theorem at concrete inputs. -/
theorem C9_witness :
    sessC9 ∈ listSessions storeC9 "a:b" "c" ∧ ("a" : String) = "a" ∧ ("u" : String) = "u" :=
  ⟨(C9_amended.1 storeC9 "a:b" "c" sessC9).mpr
      ⟨sessionKey "a:b" "c" "s", by decide, by decide⟩,
    C9_amended.2 "a" "u" "s" "a" "u" (by decide) (by decide) (by decide) (by decide) (by decide)⟩

/-- C10, confirmed: `AppendEvent` on a (appName, userID, sessionID) triple
with no stored session returns a Go `nil` error and leaves the store
unchanged — the event is silently dropped. -/
theorem C10_appendEvent_missing_session (svc : SessionStore)
    (appName userID sessionID : String) (e : Event) (now : Nat)
    (h : getSession svc appName userID sessionID = none) :
    appendEvent svc appName userID sessionID e now = (none, svc) := by
  unfold getSession at h
  unfold appendEvent
  rw [h]

/-- C10 witness: the empty store at a concrete triple. -/
theorem C10_witness :
    appendEvent [] "app" "u" "s" (NewEvent "e" 0) 0 = (none, []) :=
  C10_appendEvent_missing_session [] "app" "u" "s" (NewEvent "e" 0) 0 rfl

/-! ## Claims C6, C7, C8 -/

/-- C6 counterexample: the claim that the output-key state write happens
*after* the event has been forwarded downstream is false.  For a concrete
final-response event the processing trace is [state write, forward]: the
write has no forward before it. -/
theorem C6_counterexample :
    llmProcessEvents "k" [evC6] = [LlmOp.stateWrite "k" "hi", LlmOp.forward evC6] ∧
    ¬ ∃ i j : Nat, j < i ∧
        (llmProcessEvents "k" [evC6])[j]? = some (LlmOp.forward evC6) ∧
        (llmProcessEvents "k" [evC6])[i]? = some (LlmOp.stateWrite "k" "hi") := by
  have hlist : llmProcessEvents "k" [evC6] = [LlmOp.stateWrite "k" "hi", LlmOp.forward evC6] := by
    decide
  refine ⟨hlist, ?_⟩
  rintro ⟨i, j, hji, hfwd, hwrite⟩
  rw [hlist] at hfwd hwrite
  match i, hwrite with
  | 0, _ => exact absurd hji (Nat.not_lt_zero j)
  | 1, hw => exact absurd hw (by decide)
  | (n + 2), hw => exact absurd hw (by simp)

/-- C6, amended: with a non-empty output key, the processing loop emits,
for every final-response event with present content and at least one part,
exactly one state write of the first part's text, placed immediately
*before* (not after) forwarding that event; intermediate (non-final) events
are forwarded without any state write. -/
theorem C6_output_key_written_before_forward (outputKey : String) (hk : outputKey ≠ "")
    (responses : List Event) :
    llmProcessEvents outputKey responses =
      (responses.map (fun e =>
        (if e.isFinalResponse && e.content.isSome then storeOutputInSession outputKey e
         else []) ++ [LlmOp.forward e])).flatten := by
  have hb : (outputKey != "") = true := bne_iff_ne.mpr hk
  induction responses with
  | nil => rfl
  | cons e rest ih =>
      simp only [llmProcessEvents, hasToolCalls, Bool.false_eq_true, if_false, hb,
        Bool.true_and, List.map_cons, List.flatten_cons, ih, List.append_assoc]

/-- C6 witness: the amended theorem at the concrete final event. -/
theorem C6_witness :
    llmProcessEvents "k" [evC6] =
      (([evC6]).map (fun e =>
        (if e.isFinalResponse && e.content.isSome then storeOutputInSession "k" e
         else []) ++ [LlmOp.forward e])).flatten :=
  C6_output_key_written_before_forward "k" (by decide) [evC6]

/-- Registry-level idempotence: once `NewLLM` has resolved a model name the
registry is a fixed point for it — a second call returns the identical
cached handle and the unchanged registry (in particular the
factory-invocation counter does not move). -/
theorem newLLM_idempotent (reg reg1 : LLMRegistry) (modelName : String) (h : LLMHandle)
    (hfirst : newLLM reg modelName = (reg1, .ok h)) :
    newLLM reg1 modelName = (reg1, .ok h) := by
  unfold newLLM at hfirst
  cases hget : alistGet reg.instances modelName with
  | some inst =>
      rw [hget] at hfirst
      injection hfirst with h1 h2
      injection h2 with h3
      subst h1
      subst h3
      unfold newLLM
      rw [hget]
  | none =>
      rw [hget] at hfirst
      by_cases hname : (6 <= modelName.data.length && modelName.data.take 6 == "gemini".data) = true
      · rw [if_pos hname] at hfirst
        by_cases hfac : reg.models.contains "gemini" = true
        · rw [if_pos hfac] at hfirst
          injection hfirst with h1 h2
          injection h2 with h3
          subst h3
          unfold newLLM
          rw [← h1]
          simp only [alistGet_set_self]
        · rw [if_neg hfac] at hfirst
          injection hfirst with h1 h2
          exact absurd h2 (by simp)
      · rw [if_neg hname] at hfirst
        injection hfirst with h1 h2
        exact absurd h2 (by simp)

/-- C7, confirmed: backend resolution is lazy, cached and idempotent.  If a
leaf agent's first `GetCanonicalModel` call (empty cache `a.llm`) resolves
`model` to handle `h` leaving registry `reg1`, then a second call returns
the identical handle and changes nothing — neither the agent cache nor the
registry (so the factory is not invoked again: `factoryCalls` is part of
the registry equality) — and even a direct second `models.Resolve`/`NewLLM`
for the same identifier returns the identical handle. -/
theorem C7_resolution_cached_idempotent (model : String) (reg reg1 : LLMRegistry)
    (h : LLMHandle) (hfirst : getCanonicalModel none model reg = (some h, reg1)) :
    getCanonicalModel (some h) model reg1 = (some h, reg1) ∧
    newLLM reg1 model = (reg1, .ok h) := by
  refine ⟨rfl, ?_⟩
  unfold getCanonicalModel resolve at hfirst
  cases hr : newLLM reg model with
  | mk rreg rres =>
      rw [hr] at hfirst
      cases rres with
      | error e => exact absurd hfirst (by simp)
      | ok hh =>
          simp only [Prod.mk.injEq, Option.some.injEq] at hfirst
          rw [← hfirst.1, ← hfirst.2]
          exact newLLM_idempotent reg rreg model hh hr

/-- The registry state after the C7 witness's first resolution. -/
def regC7 : LLMRegistry :=
  (getCanonicalModel none "gemini-2.0-flash" defaultRegistry).2

/-- The handle created by the C7 witness's first resolution. -/
def handleC7 : LLMHandle :=
  { modelType := "gemini", modelName := "gemini-2.0-flash", instanceId := 0 }

/-- C7 witness: resolving "gemini-2.0-flash" against the `init`-time default
registry, then resolving again. -/
theorem C7_witness :
    getCanonicalModel (some handleC7) "gemini-2.0-flash" regC7 = (some handleC7, regC7) ∧
    newLLM regC7 "gemini-2.0-flash" = (regC7, .ok handleC7) :=
  C7_resolution_cached_idempotent "gemini-2.0-flash" defaultRegistry regC7 handleC7 (by decide)

/-- The inductive invariant of the `State.Update` / `State.Get` lock
protocol holds at every reachable state. -/
theorem lockInv_holds {st : LockState} (h : LockReachable st) : LockInv st := by
  induction h with
  | init => exact Or.inl ⟨rfl, rfl, rfl⟩
  | @step st2 st3 hreach hstep ih =>
      cases hstep with
      | acqWrite hpc hw hr =>
          rcases ih with h1 | h1 | h1 | h1 | h1
          · exact Or.inr (Or.inl ⟨rfl, rfl, hr, h1.2.1, h1.2.2⟩)
          · rw [hpc] at h1; exact absurd h1.1 (by decide)
          · rw [hpc] at h1; exact absurd h1.1 (by decide)
          · rw [hpc] at h1; exact absurd h1.1 (by decide)
          · rw [hpc] at h1; exact absurd h1.1 (by decide)
      | writeK1 hpc =>
          rcases ih with h1 | h1 | h1 | h1 | h1
          · rw [hpc] at h1; exact absurd h1.1 (by decide)
          · exact Or.inr (Or.inr (Or.inl ⟨rfl, h1.2.1, h1.2.2.1, rfl, h1.2.2.2.2⟩))
          · rw [hpc] at h1; exact absurd h1.1 (by decide)
          · rw [hpc] at h1; exact absurd h1.1 (by decide)
          · rw [hpc] at h1; exact absurd h1.1 (by decide)
      | writeK2 hpc =>
          rcases ih with h1 | h1 | h1 | h1 | h1
          · rw [hpc] at h1; exact absurd h1.1 (by decide)
          · rw [hpc] at h1; exact absurd h1.1 (by decide)
          · exact Or.inr (Or.inr (Or.inr (Or.inl ⟨rfl, h1.2.1, h1.2.2.1, h1.2.2.2.1, rfl⟩)))
          · rw [hpc] at h1; exact absurd h1.1 (by decide)
          · rw [hpc] at h1; exact absurd h1.1 (by decide)
      | relWrite hpc =>
          rcases ih with h1 | h1 | h1 | h1 | h1
          · rw [hpc] at h1; exact absurd h1.1 (by decide)
          · rw [hpc] at h1; exact absurd h1.1 (by decide)
          · rw [hpc] at h1; exact absurd h1.1 (by decide)
          · exact Or.inr (Or.inr (Or.inr (Or.inr ⟨rfl, h1.2.2.2.1, h1.2.2.2.2⟩)))
          · rw [hpc] at h1; exact absurd h1.1 (by decide)
      | acqRead hw =>
          rcases ih with h1 | h1 | h1 | h1 | h1
          · exact Or.inl ⟨h1.1, h1.2.1, h1.2.2⟩
          · exact absurd (hw.symm.trans h1.2.1) (by decide)
          · exact absurd (hw.symm.trans h1.2.1) (by decide)
          · exact absurd (hw.symm.trans h1.2.1) (by decide)
          · exact Or.inr (Or.inr (Or.inr (Or.inr ⟨h1.1, h1.2.1, h1.2.2⟩)))
      | relRead hr =>
          rcases ih with h1 | h1 | h1 | h1 | h1
          · exact Or.inl ⟨h1.1, h1.2.1, h1.2.2⟩
          · rw [h1.2.2.1] at hr; exact absurd hr (by decide)
          · rw [h1.2.2.1] at hr; exact absurd hr (by decide)
          · rw [h1.2.2.1] at hr; exact absurd hr (by decide)
          · exact Or.inr (Or.inr (Or.inr (Or.inr ⟨h1.1, h1.2.1, h1.2.2⟩)))

/-- C8, confirmed: in every interleaving of `State.Update({k1, k2})` with
concurrently executing `State.Get`s respecting the `sync.RWMutex`
discipline of session.go:49-71, whenever any reader holds the read lock
(`readers > 0`) the store is never half-updated: either both keys still
hold their old values or both hold their new values. -/
theorem C8_bulk_update_atomic (st : LockState) (h : LockReachable st)
    (hr : 0 < st.readers) : st.k1New = st.k2New := by
  rcases lockInv_holds h with h1 | h1 | h1 | h1 | h1
  · rw [h1.2.1, h1.2.2]
  · rw [h1.2.2.1] at hr; exact absurd hr (by decide)
  · rw [h1.2.2.1] at hr; exact absurd hr (by decide)
  · rw [h1.2.2.1] at hr; exact absurd hr (by decide)
  · rw [h1.2.1, h1.2.2]

/-- C8 witness: the state reached by one reader acquiring the read lock
from the initial state. -/
theorem C8_witness :
    ({ lockInit with readers := lockInit.readers + 1 } : LockState).k1New =
      ({ lockInit with readers := lockInit.readers + 1 } : LockState).k2New :=
  C8_bulk_update_atomic _
    (LockReachable.step LockReachable.init (LockStep.acqRead lockInit rfl)) (by decide)

/-! ## Claims C3, C4, C5: workflow combinators -/

theorem seqChildrenRun_eq_childOutputs (children : List ChildRun) (s : StateData) :
    (seqChildrenRun children s).2 = (childOutputs children s).flatten := by
  induction children generalizing s with
  | nil => rfl
  | cons c cs ih =>
      cases hc : c s with
      | error msg => simp [seqChildrenRun, childOutputs, hc, ih]
      | ok pair =>
          obtain ⟨s1, evs⟩ := pair
          simp [seqChildrenRun, childOutputs, hc, ih]

theorem childOutputs_length (children : List ChildRun) (s : StateData) :
    (childOutputs children s).length = children.length := by
  induction children generalizing s with
  | nil => rfl
  | cons c cs ih =>
      cases hc : c s with
      | error msg => simp [childOutputs, hc, ih]
      | ok pair =>
          obtain ⟨s1, evs⟩ := pair
          simp [childOutputs, hc, ih]

theorem seqChildrenRun_append (a b : List ChildRun) (s : StateData) :
    seqChildrenRun (a ++ b) s =
      ((seqChildrenRun b (seqChildrenRun a s).1).1,
        (seqChildrenRun a s).2 ++ (seqChildrenRun b (seqChildrenRun a s).1).2) := by
  induction a generalizing s with
  | nil => simp [seqChildrenRun]
  | cons c cs ih =>
      cases hc : c s with
      | error msg => simp [seqChildrenRun, hc, ih]
      | ok pair =>
          obtain ⟨s1, evs⟩ := pair
          simp [seqChildrenRun, hc, ih]

theorem sequentialRunAsync_output (beforeCb afterCb : Option AgentCallback)
    (children : List ChildRun) (s s0 : StateData) (hb : runCallback beforeCb s = .ok s0) :
    (sequentialRunAsync beforeCb afterCb children s).2 = (seqChildrenRun children s0).2 := by
  unfold sequentialRunAsync
  rw [hb]
  cases hafter : runCallback afterCb (seqChildrenRun children s0).1 <;> simp [hafter]

/-- C3, confirmed (under the implicit proviso that the combinator's own
before-agent callback does not abort the run): the sequential combinator's
output is exactly the concatenation, in list order, of each child's full
output stream at the states the sequence threads; an erroring child
contributes the empty stream and the sequence still runs the remaining
children (last conjunct: the output splits around the failing child). -/
theorem C3_sequential_concat (beforeCb afterCb : Option AgentCallback)
    (children : List ChildRun) (s s0 : StateData)
    (hb : runCallback beforeCb s = .ok s0) :
    (sequentialRunAsync beforeCb afterCb children s).2 = (childOutputs children s0).flatten ∧
    (childOutputs children s0).length = children.length ∧
    (∀ pre cErr post msg, children = pre ++ cErr :: post →
        cErr (seqChildrenRun pre s0).1 = .error msg →
        (sequentialRunAsync beforeCb afterCb children s).2 =
          (seqChildrenRun pre s0).2 ++ (seqChildrenRun post (seqChildrenRun pre s0).1).2) := by
  refine ⟨?_, childOutputs_length children s0, ?_⟩
  · rw [sequentialRunAsync_output beforeCb afterCb children s s0 hb]
    exact seqChildrenRun_eq_childOutputs children s0
  · intro pre cErr post msg hsplit herr
    rw [sequentialRunAsync_output beforeCb afterCb children s s0 hb, hsplit,
      seqChildrenRun_append]
    simp [seqChildrenRun, herr]

/-- C3 witness: two emitting children around a failing one. -/
theorem C3_witness :
    (sequentialRunAsync none none [childPlain, childErr, childPlain] []).2 =
      (childOutputs [childPlain, childErr, childPlain] []).flatten :=
  (C3_sequential_concat none none [childPlain, childErr, childPlain] [] [] rfl).1

theorem loopForwardChild_no_exit (evs : List Event)
    (h : ∀ e ∈ evs, shouldExitLoopFromEvent e = false) :
    loopForwardChild evs = (evs, false) := by
  induction evs with
  | nil => rfl
  | cons e rest ih =>
      have he : shouldExitLoopFromEvent e = false := h e (List.mem_cons_self e rest)
      have hrest := ih (fun x hx => h x (List.mem_cons_of_mem e hx))
      simp [loopForwardChild, he, hrest]

theorem loopChildrenRun_no_exit (children : List ChildRun) (s : StateData)
    (h : ∀ e ∈ (seqChildrenRun children s).2, shouldExitLoopFromEvent e = false) :
    loopChildrenRun children s =
      ((seqChildrenRun children s).1, (seqChildrenRun children s).2, false) := by
  induction children generalizing s with
  | nil => rfl
  | cons c cs ih =>
      cases hc : c s with
      | error msg =>
          have hrest : ∀ e ∈ (seqChildrenRun cs s).2, shouldExitLoopFromEvent e = false := by
            intro e he
            exact h e (by simpa [seqChildrenRun, hc] using he)
          simp [loopChildrenRun, seqChildrenRun, hc, ih s hrest]
      | ok pair =>
          obtain ⟨s1, evs⟩ := pair
          have hsplit : (seqChildrenRun (c :: cs) s).2 = evs ++ (seqChildrenRun cs s1).2 := by
            simp [seqChildrenRun, hc]
          have hevs : ∀ e ∈ evs, shouldExitLoopFromEvent e = false := by
            intro e he
            exact h e (by rw [hsplit]; exact List.mem_append_left _ he)
          have hrest : ∀ e ∈ (seqChildrenRun cs s1).2, shouldExitLoopFromEvent e = false := by
            intro e he
            exact h e (by rw [hsplit]; exact List.mem_append_right _ he)
          simp [loopChildrenRun, seqChildrenRun, hc, loopForwardChild_no_exit evs hevs,
            ih s1 hrest]

theorem fullPasses_length (children : List ChildRun) (K : Nat) (s : StateData) :
    ((fullPasses children K s).2).length = K := by
  induction K generalizing s with
  | zero => rfl
  | succ k ih => simp [fullPasses, ih]

theorem loopIterate_no_exit (children : List ChildRun) (K : Nat) (s : StateData)
    (hstate : ∀ t ∈ passStates children K s, shouldExitLoop t = false)
    (hevents : ∀ evs ∈ (fullPasses children K s).2, ∀ e ∈ evs,
        shouldExitLoopFromEvent e = false) :
    loopIterate children K s =
      ((fullPasses children K s).1, ((fullPasses children K s).2).flatten) := by
  induction K generalizing s with
  | zero => rfl
  | succ k ih =>
      have hs : shouldExitLoop s = false :=
        hstate s (by simp [passStates])
      have hpass : ∀ e ∈ (seqChildrenRun children s).2, shouldExitLoopFromEvent e = false :=
        hevents (seqChildrenRun children s).2 (by simp [fullPasses])
      have hstateRest : ∀ t ∈ passStates children k (seqChildrenRun children s).1,
          shouldExitLoop t = false := by
        intro t ht
        exact hstate t (by simp [passStates, ht])
      have heventsRest : ∀ evs ∈ (fullPasses children k (seqChildrenRun children s).1).2,
          ∀ e ∈ evs, shouldExitLoopFromEvent e = false := by
        intro evs hevs
        exact hevents evs (by simp [fullPasses, hevs])
      simp [loopIterate, fullPasses, hs, loopChildrenRun_no_exit children s hpass,
        ih (seqChildrenRun children s).1 hstateRest heventsRest]

theorem loopRunAsync_output (beforeCb afterCb : Option AgentCallback)
    (children : List ChildRun) (K : Nat) (s s0 : StateData)
    (hb : runCallback beforeCb s = .ok s0) :
    (loopRunAsync beforeCb afterCb children K s).2 = (loopIterate children K s0).2 := by
  unfold loopRunAsync
  rw [hb]
  cases hafter : runCallback afterCb (loopIterate children K s0).1 <;> simp [hafter]

/-- C4, confirmed (under the implicit proviso that the combinator's own
before-agent callback does not abort the run): when the session-state exit
flag is false at every iteration boundary and no produced event signals a
loop exit, the loop performs exactly `K` full sequential passes over the
children — its output is the concatenation of the `K` unchecked pass
outputs — and the run ends normally (the model is a total function; there
is no error outcome for reaching the cap). -/
theorem C4_loop_exactly_K_passes (beforeCb afterCb : Option AgentCallback)
    (children : List ChildRun) (K : Nat) (s s0 : StateData)
    (hb : runCallback beforeCb s = .ok s0)
    (hstate : ∀ t ∈ passStates children K s0, shouldExitLoop t = false)
    (hevents : ∀ evs ∈ (fullPasses children K s0).2, ∀ e ∈ evs,
        shouldExitLoopFromEvent e = false) :
    (loopRunAsync beforeCb afterCb children K s).2 =
      ((fullPasses children K s0).2).flatten ∧
    ((fullPasses children K s0).2).length = K := by
  refine ⟨?_, fullPasses_length children K s0⟩
  rw [loopRunAsync_output beforeCb afterCb children K s s0 hb,
    loopIterate_no_exit children K s0 hstate hevents]

/-- C4 witness: one benign child, cap 2: exactly two passes happen. -/
theorem C4_witness :
    (loopRunAsync none none [childPlain] 2 []).2 =
      ((fullPasses [childPlain] 2 []).2).flatten ∧
    ((fullPasses [childPlain] 2 []).2).length = 2 :=
  C4_loop_exactly_K_passes none none [childPlain] 2 [] [] rfl (by decide) (by decide)

theorem exitOnlyAtEnd_of_no_exit (l : List Event)
    (h : ∀ e ∈ l, shouldExitLoopFromEvent e = false) :
    exitOnlyAtEnd l = true := by
  induction l with
  | nil => rfl
  | cons e rest ih =>
      cases rest with
      | nil => rfl
      | cons x xs =>
          have he : shouldExitLoopFromEvent e = false := h e (List.mem_cons_self e _)
          have hrest := ih (fun y hy => h y (List.mem_cons_of_mem e hy))
          simp [exitOnlyAtEnd, he, hrest]

theorem exitOnlyAtEnd_cons (e : Event) (l : List Event)
    (he : shouldExitLoopFromEvent e = false) (hl : exitOnlyAtEnd l = true) :
    exitOnlyAtEnd (e :: l) = true := by
  cases l with
  | nil => rfl
  | cons x xs => simpa [exitOnlyAtEnd, he] using hl

theorem exitOnlyAtEnd_append (a b : List Event)
    (ha : ∀ e ∈ a, shouldExitLoopFromEvent e = false)
    (hb : exitOnlyAtEnd b = true) :
    exitOnlyAtEnd (a ++ b) = true := by
  induction a with
  | nil => simpa using hb
  | cons e rest ih =>
      have he : shouldExitLoopFromEvent e = false := ha e (List.mem_cons_self e _)
      have hrest := ih (fun y hy => ha y (List.mem_cons_of_mem e hy))
      exact exitOnlyAtEnd_cons e (rest ++ b) he hrest

theorem loopForwardChild_exit_shape (evs : List Event) :
    exitOnlyAtEnd (loopForwardChild evs).1 = true ∧
    ((loopForwardChild evs).2 = false →
      ∀ e ∈ (loopForwardChild evs).1, shouldExitLoopFromEvent e = false) := by
  induction evs with
  | nil => exact ⟨rfl, fun _ e he => absurd he (List.not_mem_nil e)⟩
  | cons e rest ih =>
      by_cases he : shouldExitLoopFromEvent e = true
      · refine ⟨by simp [loopForwardChild, he, exitOnlyAtEnd], ?_⟩
        intro hfalse
        rw [loopForwardChild] at hfalse
        simp [he] at hfalse
      · have he2 : shouldExitLoopFromEvent e = false := by
          cases hsh : shouldExitLoopFromEvent e
          · rfl
          · exact absurd hsh he
        have h1 : (loopForwardChild (e :: rest)).1 = e :: (loopForwardChild rest).1 := by
          simp [loopForwardChild, he2]
        have h2 : (loopForwardChild (e :: rest)).2 = (loopForwardChild rest).2 := by
          simp [loopForwardChild, he2]
        constructor
        · rw [h1]
          exact exitOnlyAtEnd_cons e _ he2 ih.1
        · intro hnoexit x hx
          rw [h2] at hnoexit
          rw [h1] at hx
          rcases List.mem_cons.mp hx with hxe | hxr
          · rw [hxe]; exact he2
          · exact ih.2 hnoexit x hxr

theorem loopChildrenRun_exit_shape (children : List ChildRun) (s : StateData) :
    exitOnlyAtEnd (loopChildrenRun children s).2.1 = true ∧
    ((loopChildrenRun children s).2.2 = false →
      ∀ e ∈ (loopChildrenRun children s).2.1, shouldExitLoopFromEvent e = false) := by
  induction children generalizing s with
  | nil => exact ⟨rfl, fun _ e he => absurd he (List.not_mem_nil e)⟩
  | cons c cs ih =>
      cases hc : c s with
      | error msg =>
          have heq : loopChildrenRun (c :: cs) s = loopChildrenRun cs s := by
            simp [loopChildrenRun, hc]
          rw [heq]
          exact ih s
      | ok pair =>
          obtain ⟨s1, evs⟩ := pair
          by_cases hex : (loopForwardChild evs).2 = true
          · have heq : loopChildrenRun (c :: cs) s = (s1, (loopForwardChild evs).1, true) := by
              simp [loopChildrenRun, hc, hex]
            rw [heq]
            refine ⟨(loopForwardChild_exit_shape evs).1, ?_⟩
            intro hfalse
            simp at hfalse
          · have hex2 : (loopForwardChild evs).2 = false := by
              cases hb : (loopForwardChild evs).2
              · rfl
              · exact absurd hb hex
            have hnoexit : ∀ e ∈ (loopForwardChild evs).1, shouldExitLoopFromEvent e = false :=
              (loopForwardChild_exit_shape evs).2 hex2
            have heq : loopChildrenRun (c :: cs) s =
                ((loopChildrenRun cs s1).1,
                  (loopForwardChild evs).1 ++ (loopChildrenRun cs s1).2.1,
                  (loopChildrenRun cs s1).2.2) := by
              simp [loopChildrenRun, hc, hex2]
            rw [heq]
            constructor
            · exact exitOnlyAtEnd_append _ _ hnoexit (ih s1).1
            · intro hfalse x hx
              rcases List.mem_append.mp hx with hxa | hxb
              · exact hnoexit x hxa
              · exact (ih s1).2 hfalse x hxb

theorem loopIterate_exit_shape (children : List ChildRun) (K : Nat) (s : StateData) :
    exitOnlyAtEnd (loopIterate children K s).2 = true := by
  induction K generalizing s with
  | zero => rfl
  | succ k ih =>
      by_cases hs : shouldExitLoop s = true
      · simp [loopIterate, hs, exitOnlyAtEnd]
      · have hs2 : shouldExitLoop s = false := by
          cases hb : shouldExitLoop s
          · rfl
          · exact absurd hb hs
        by_cases hex : (loopChildrenRun children s).2.2 = true
        · have heq : loopIterate children (k + 1) s =
              ((loopChildrenRun children s).1, (loopChildrenRun children s).2.1) := by
            simp [loopIterate, hs2, hex]
          rw [heq]
          exact (loopChildrenRun_exit_shape children s).1
        · have hex2 : (loopChildrenRun children s).2.2 = false := by
            cases hb : (loopChildrenRun children s).2.2
            · rfl
            · exact absurd hb hex
          have heq : loopIterate children (k + 1) s =
              ((loopIterate children k (loopChildrenRun children s).1).1,
                (loopChildrenRun children s).2.1 ++
                  (loopIterate children k (loopChildrenRun children s).1).2) := by
            simp [loopIterate, hs2, hex2]
          rw [heq]
          exact exitOnlyAtEnd_append _ _
            ((loopChildrenRun_exit_shape children s).2 hex2)
            (ih (loopChildrenRun children s).1)

theorem exitOnlyAtEnd_last (l : List Event) (h : exitOnlyAtEnd l = true) :
    ∀ i (hi : i < l.length),
      shouldExitLoopFromEvent (l.get ⟨i, hi⟩) = true → i + 1 = l.length := by
  induction l with
  | nil => intro i hi; exact absurd hi (by simp)
  | cons e rest ih =>
      intro i hi hexit
      cases rest with
      | nil =>
          match i, hi with
          | 0, _ => rfl
      | cons x xs =>
          have hsplit : shouldExitLoopFromEvent e = false ∧ exitOnlyAtEnd (x :: xs) = true := by
            simpa [exitOnlyAtEnd, Bool.and_eq_true] using h
          match i, hi, hexit with
          | 0, hi0, hex0 =>
              rw [List.get] at hex0
              exact absurd hex0 (by simp [hsplit.1])
          | Nat.succ j, hij, hexj =>
              have hj : j < (x :: xs).length := Nat.lt_of_succ_lt_succ hij
              have := ih hsplit.2 j hj (by simpa [List.get] using hexj)
              simpa using congrArg Nat.succ this

/-- C5, confirmed: on the loop combinator's output stream, an event whose
action bundle signals a loop exit can only be the very last delivered
event — after forwarding it the loop abandons the rest of the current
child's stream, all later children and all later iterations, and no
further event is ever emitted (it proceeds straight to the after-agent
callback, which emits nothing). -/
theorem C5_loop_stops_at_exit_event (beforeCb afterCb : Option AgentCallback)
    (children : List ChildRun) (K : Nat) (s : StateData) (i : Nat)
    (hi : i < ((loopRunAsync beforeCb afterCb children K s).2).length)
    (hexit : shouldExitLoopFromEvent
      (((loopRunAsync beforeCb afterCb children K s).2).get ⟨i, hi⟩) = true) :
    i + 1 = ((loopRunAsync beforeCb afterCb children K s).2).length := by
  have hshape : exitOnlyAtEnd (loopRunAsync beforeCb afterCb children K s).2 = true := by
    unfold loopRunAsync
    cases hb : runCallback beforeCb s with
    | error msg => simp [exitOnlyAtEnd]
    | ok s0 =>
        cases hafter : runCallback afterCb (loopIterate children K s0).1 <;>
          simpa [hafter] using loopIterate_exit_shape children K s0
  exact exitOnlyAtEnd_last _ hshape i hi hexit

/-- C5 witness: a child emits an exit-signalling event followed by another
event; the exit event is delivered and is the last event of the whole
3-iteration loop. -/
theorem C5_witness :
    0 + 1 = ((loopRunAsync none none [childExit, childPlain] 3 []).2).length :=
  C5_loop_stops_at_exit_event none none [childExit, childPlain] 3 [] 0 (by decide) (by decide)

/-! ## Claims C1 and C2: the Runner -/

theorem persistedEvents_of_getSession (svc : SessionStore)
    (appName userID sessionID : String) (sess : Session)
    (h : getSession svc appName userID sessionID = some sess) :
    persistedEvents svc appName userID sessionID = sess.events := by
  unfold persistedEvents
  rw [h]

theorem appendEvent_present (svc : SessionStore) (appName userID sessionID : String)
    (sess : Session) (e : Event) (now : Nat)
    (h : getSession svc appName userID sessionID = some sess) :
    (appendEvent svc appName userID sessionID e now).2 =
      alistSet svc (sessionKey appName userID sessionID) (sess.AddEvent e now) ∧
    getSession (appendEvent svc appName userID sessionID e now).2 appName userID sessionID =
      some (sess.AddEvent e now) := by
  unfold getSession at h
  unfold appendEvent getSession
  rw [h]
  exact ⟨rfl, alistGet_set_self svc (sessionKey appName userID sessionID) (sess.AddEvent e now)⟩

theorem getOrCreateSession_get (svc : SessionStore) (appName userID sessionID : String)
    (fsid : String) (now : Nat) :
    getSession (getOrCreateSession svc appName userID sessionID fsid now).1
      appName userID sessionID =
      some (getOrCreateSession svc appName userID sessionID fsid now).2 := by
  unfold getOrCreateSession
  cases h : getSession svc appName userID sessionID with
  | some sess => simpa using h
  | none =>
      simp only [createSession]
      exact alistGet_set_self svc (sessionKey appName userID sessionID)
        (NewSession appName userID sessionID none fsid now)

theorem runnerStoreBeforeAgent_get (svc : SessionStore)
    (appName userID sessionID : String) (newMessage : Option Content)
    (fsid feid : String) (now : Nat) :
    ∃ sess, getSession
        (runnerStoreBeforeAgent svc appName userID sessionID newMessage fsid feid now)
        appName userID sessionID = some sess := by
  unfold runnerStoreBeforeAgent
  cases newMessage with
  | none => exact ⟨_, getOrCreateSession_get svc appName userID sessionID fsid now⟩
  | some m =>
      have h1 := getOrCreateSession_get svc appName userID sessionID fsid now
      have h2 := (appendEvent_present _ appName userID sessionID _
        (runnerUserEvent m feid now) now h1).2
      have h3 := (appendEvent_present _ appName userID sessionID _
        (runnerUserEvent m feid now) now h2).2
      exact ⟨_, h3⟩

theorem runnerRelay_spec (appName userID sessionID : String) (now : Nat) :
    ∀ (evs : List Event) (svc : SessionStore) (sess : Session),
      getSession svc appName userID sessionID = some sess →
      ((runnerRelay appName userID sessionID now svc evs).2.map Prod.snd = evs) ∧
      (∀ i (hi : i < (runnerRelay appName userID sessionID now svc evs).2.length),
          persistedEvents ((runnerRelay appName userID sessionID now svc evs).2.get ⟨i, hi⟩).1
              appName userID sessionID =
            sess.events ++ evs.take (i + 1)) ∧
      persistedEvents (runnerRelay appName userID sessionID now svc evs).1
          appName userID sessionID = sess.events ++ evs := by
  intro evs
  induction evs with
  | nil =>
      intro svc sess hsess
      refine ⟨rfl, ?_, ?_⟩
      · intro i hi
        exact absurd hi (by simp [runnerRelay])
      · simpa [runnerRelay] using persistedEvents_of_getSession svc appName userID sessionID sess hsess
  | cons e rest ih =>
      intro svc sess hsess
      have happ := appendEvent_present svc appName userID sessionID sess e now hsess
      have hnext := ih (appendEvent svc appName userID sessionID e now).2
        (sess.AddEvent e now) happ.2
      have hevents : (Session.AddEvent sess e now).events = sess.events ++ [e] := rfl
      refine ⟨?_, ?_, ?_⟩
      · simpa [runnerRelay] using hnext.1
      · intro i hi
        match i, hi with
        | 0, hi0 =>
            show persistedEvents (appendEvent svc appName userID sessionID e now).2
                appName userID sessionID = sess.events ++ (e :: rest).take 1
            rw [persistedEvents_of_getSession _ appName userID sessionID _ happ.2, hevents]
            simp
        | Nat.succ j, hij =>
            have hj : j < (runnerRelay appName userID sessionID now
                (appendEvent svc appName userID sessionID e now).2 rest).2.length := by
              simpa [runnerRelay] using hij
            have := hnext.2.1 j hj
            rw [hevents] at this
            show persistedEvents ((runnerRelay appName userID sessionID now
                (appendEvent svc appName userID sessionID e now).2 rest).2.get ⟨j, hj⟩).1
                appName userID sessionID = sess.events ++ (e :: rest).take (j + 2)
            rw [this]
            simp [List.take_succ_cons]
      · have := hnext.2.2
        rw [hevents] at this
        simpa [runnerRelay] using this

theorem runnerRunAsync_ok (svc : SessionStore) (appName userID sessionID : String)
    (newMessage : Option Content) (agent : AgentFn) (fsid feid : String) (now : Nat)
    (run : RunnerRun)
    (h : runnerRunAsync svc appName userID sessionID newMessage agent fsid feid now = .ok run) :
    ∃ sess,
      getSession (runnerStoreBeforeAgent svc appName userID sessionID newMessage fsid feid now)
        appName userID sessionID = some sess ∧
      agent (runnerInvCtx svc appName userID sessionID newMessage fsid feid now) =
        .ok run.output ∧
      (∀ i (hi : i < run.trace.length),
          persistedEvents (run.trace.get ⟨i, hi⟩).1 appName userID sessionID =
            sess.events ++ run.output.take (i + 1)) ∧
      persistedEvents run.finalStore appName userID sessionID = sess.events ++ run.output := by
  obtain ⟨sess, hsess⟩ :=
    runnerStoreBeforeAgent_get svc appName userID sessionID newMessage fsid feid now
  refine ⟨sess, hsess, ?_⟩
  unfold runnerRunAsync at h
  cases hagent : agent (runnerInvCtx svc appName userID sessionID newMessage fsid feid now) with
  | error msg =>
      rw [hagent] at h
      exact absurd h (by simp)
  | ok agentEvents =>
      rw [hagent] at h
      injection h with h2
      subst h2
      have hrelay := runnerRelay_spec appName userID sessionID now agentEvents
        (runnerStoreBeforeAgent svc appName userID sessionID newMessage fsid feid now)
        sess hsess
      have houtput : RunnerRun.output
          { finalStore := (runnerRelay appName userID sessionID now
              (runnerStoreBeforeAgent svc appName userID sessionID newMessage fsid feid now)
              agentEvents).1,
            trace := (runnerRelay appName userID sessionID now
              (runnerStoreBeforeAgent svc appName userID sessionID newMessage fsid feid now)
              agentEvents).2 } = agentEvents := hrelay.1
      refine ⟨by rw [houtput], ?_, ?_⟩
      · intro i hi
        rw [houtput]
        exact hrelay.2.1 i hi
      · rw [houtput]
        exact hrelay.2.2

/-- C1, confirmed: for every successful `Runner.RunAsync` invocation, the
caller's output stream is exactly the root agent's event stream; at the
moment each event is delivered it is already persisted (the session's event
list then ends with exactly the events observed so far, in observation
order); and after the stream closes the session's persisted list is the
pre-agent list extended by the full observed sequence in order.  In
particular the caller never observes an event that was not first passed to
`AppendEvent`. -/
theorem C1_runner_persists_before_forwarding (svc : SessionStore)
    (appName userID sessionID : String) (newMessage : Option Content) (agent : AgentFn)
    (fsid feid : String) (now : Nat) (run : RunnerRun)
    (h : runnerRunAsync svc appName userID sessionID newMessage agent fsid feid now = .ok run) :
    agent (runnerInvCtx svc appName userID sessionID newMessage fsid feid now) =
      .ok run.output ∧
    (∀ i (hi : i < run.trace.length),
        persistedEvents (run.trace.get ⟨i, hi⟩).1 appName userID sessionID =
          persistedEvents
              (runnerStoreBeforeAgent svc appName userID sessionID newMessage fsid feid now)
              appName userID sessionID ++ run.output.take (i + 1)) ∧
    persistedEvents run.finalStore appName userID sessionID =
      persistedEvents
          (runnerStoreBeforeAgent svc appName userID sessionID newMessage fsid feid now)
          appName userID sessionID ++ run.output := by
  obtain ⟨sess, hsess, hagent, hidx, hfinal⟩ :=
    runnerRunAsync_ok svc appName userID sessionID newMessage agent fsid feid now run h
  rw [persistedEvents_of_getSession _ appName userID sessionID sess hsess]
  exact ⟨hagent, hidx, hfinal⟩

/-- C1 witness: a concrete run (no inbound message, one agent event); the
binder-free conjuncts of the theorem at that run. -/
theorem C1_witness :
    agentC2 (runnerInvCtx [] "app" "u" "s" none "sid" "eid" 0) = .ok runC1.output ∧
    persistedEvents runC1.finalStore "app" "u" "s" =
      persistedEvents (runnerStoreBeforeAgent [] "app" "u" "s" none "sid" "eid" 0)
        "app" "u" "s" ++ runC1.output := by
  have h := C1_runner_persists_before_forwarding [] "app" "u" "s" none agentC2
    "sid" "eid" 0 runC1 rfl
  exact ⟨h.1, h.2.2⟩

/-- C2 counterexample: with a non-nil inbound message, the first event the
caller observes is the agent's first event, not the synthesized
user-authored event — here its author is "model", not "user". -/
theorem C2_counterexample :
    (runnerRunAsync [] "app" "u" "s" (some msgC2) agentC2 "sid" "eid" 0).map
        (fun r => r.output.map Event.author) = Except.ok ["model"] ∧
    ("model" : String) ≠ "user" :=
  ⟨rfl, by decide⟩

/-- C2, amended: with a non-nil inbound message the first event persisted
in the invocation is the synthesized user-authored event carrying exactly
the inbound content, persisted before the root agent is invoked (in fact it
is appended twice: once through the runner's in-memory `session.AddEvent`
on the store-shared session pointer and once through
`SessionService.AppendEvent`); the user event is not relayed to the
caller — the output stream consists exactly of the root agent's events. -/
theorem C2_first_persisted_is_user_event (svc : SessionStore)
    (appName userID sessionID : String) (m : Content) (agent : AgentFn)
    (fsid feid : String) (now : Nat) (run : RunnerRun)
    (h : runnerRunAsync svc appName userID sessionID (some m) agent fsid feid now = .ok run) :
    (runnerUserEvent m feid now).author = "user" ∧
    (runnerUserEvent m feid now).content = some m ∧
    persistedEvents
        (runnerStoreBeforeAgent svc appName userID sessionID (some m) fsid feid now)
        appName userID sessionID =
      persistedEvents (getOrCreateSession svc appName userID sessionID fsid now).1
          appName userID sessionID
        ++ [runnerUserEvent m feid now, runnerUserEvent m feid now] ∧
    agent (runnerInvCtx svc appName userID sessionID (some m) fsid feid now) =
      .ok run.output := by
  obtain ⟨sess, hsess, hagent, hidx, hfinal⟩ :=
    runnerRunAsync_ok svc appName userID sessionID (some m) agent fsid feid now run h
  refine ⟨rfl, rfl, ?_, hagent⟩
  have h1 := getOrCreateSession_get svc appName userID sessionID fsid now
  have h2 := appendEvent_present _ appName userID sessionID _
    (runnerUserEvent m feid now) now h1
  have h3 := appendEvent_present _ appName userID sessionID _
    (runnerUserEvent m feid now) now h2.2
  have hstore : runnerStoreBeforeAgent svc appName userID sessionID (some m) fsid feid now =
      (appendEvent (appendEvent
          (getOrCreateSession svc appName userID sessionID fsid now).1
          appName userID sessionID (runnerUserEvent m feid now) now).2
        appName userID sessionID (runnerUserEvent m feid now) now).2 := by
    unfold runnerStoreBeforeAgent
    rfl
  rw [hstore, persistedEvents_of_getSession _ appName userID sessionID _ h3.2,
    persistedEvents_of_getSession _ appName userID sessionID _ h1]
  simp [Session.AddEvent]

/-- C2 witness: the amended theorem at a concrete run with an inbound
message. -/
theorem C2_witness :
    (runnerUserEvent msgC2 "eid" 0).author = "user" ∧
    (runnerUserEvent msgC2 "eid" 0).content = some msgC2 ∧
    persistedEvents (runnerStoreBeforeAgent [] "app" "u" "s" (some msgC2) "sid" "eid" 0)
        "app" "u" "s" =
      persistedEvents (getOrCreateSession [] "app" "u" "s" "sid" 0).1 "app" "u" "s"
        ++ [runnerUserEvent msgC2 "eid" 0, runnerUserEvent msgC2 "eid" 0] ∧
    agentC2 (runnerInvCtx [] "app" "u" "s" (some msgC2) "sid" "eid" 0) = .ok runC2.output :=
  C2_first_persisted_is_user_event [] "app" "u" "s" msgC2 agentC2 "sid" "eid" 0 runC2
    rfl

end Adk
